import Mathlib

/-!
# Verification of `scripts/build.py`

A shallow embedding, in Lean 4, of the static-site generator in
`scripts/build.py`, together with theorems settling the specification's
claims about it.

Modelling conventions:
* Python strings are modelled as `String` / `List Char`; the string
  pipelines (`str.lower`, `re.sub`, `str.strip`, `str.split`) are embedded
  as explicit list recursions with the same left-to-right semantics.
  `str.lower` is modelled on the ASCII range, which covers every character
  class the program's regexes distinguish.
* Fallible Python code (exceptions) is modelled with `Option` / `Except Unit`:
  `none` / `.error ()` stands for an uncaught exception.  The program
  installs no exception handler, so any error is fatal.
* External libraries that are not part of this repository (`yaml.safe_load`,
  `datetime.datetime.fromisoformat`, `markdown`, date formatters) are taken
  as parameters of the embedded functions: the theorems hold for every
  behaviour of those libraries.
-/

/-! ## Slug derivation (build.py line 99)

`slug = fm.get("slug") or re.sub(r"[^a-z0-9-]+", "-", title.lower()).strip("-")`
-/

/-- Characters the regex `[^a-z0-9-]+` does NOT match, i.e. the characters
kept verbatim by the substitution: lowercase ASCII letters, ASCII digits,
and the hyphen itself. -/
def isSlugChar (c : Char) : Bool :=
  ('a' ≤ c && c ≤ 'z') || ('0' ≤ c && c ≤ '9') || c == '-'

/-- Lowercase ASCII letters and digits ("alphanumeric" after lowercasing);
the character class the spec's collapse rule keeps. -/
def isAlnumLower (c : Char) : Bool :=
  ('a' ≤ c && c ≤ 'z') || ('0' ≤ c && c ≤ '9')

/-- Python `str.lower()` on one character, ASCII range. -/
def pyToLower (c : Char) : Char :=
  if 'A' ≤ c && c ≤ 'Z' then Char.ofNat (c.toNat + 32) else c

/-- Python whitespace, ASCII range (`str.split()` / `str.strip()` default set). -/
def isPyWs (c : Char) : Bool :=
  c == ' ' || c == '\t' || c == '\n' || c == '\r' || c == '\x0b' || c == '\x0c'

/-- One left-to-right pass of `re.sub(r"[^good]+", "-", s)`: every maximal
run of characters rejected by `good` is replaced by a single `'-'`.
`inRun` records whether the previous character belonged to such a run (so
the run's single hyphen has already been emitted). -/
def collapseRunsAux (good : Char → Bool) (inRun : Bool) : List Char → List Char
  | [] => []
  | c :: cs =>
    if good c then c :: collapseRunsAux good false cs
    else if inRun then collapseRunsAux good true cs
    else '-' :: collapseRunsAux good true cs

/-- `re.sub` run-collapse, starting outside any run. -/
def collapseRuns (good : Char → Bool) (l : List Char) : List Char :=
  collapseRunsAux good false l

/-- Independent "maximal run" formulation of the same substitution: a
rejected character opens a maximal run, the whole run becomes one hyphen.
Used as the specification-side statement of the collapse rule. -/
def collapseRunsSpec (good : Char → Bool) (l : List Char) : List Char :=
  match l with
  | [] => []
  | c :: cs =>
    if good c then c :: collapseRunsSpec good cs
    else '-' :: collapseRunsSpec good (cs.dropWhile (fun d => !good d))
termination_by l.length
decreasing_by
  · simp
  · simp only [List.length_cons]
    exact Nat.lt_succ_of_le (List.dropWhile_sublist _).length_le

/-- Right-strip: drop the maximal trailing run of characters satisfying `p`. -/
def rstripList (p : Char → Bool) : List Char → List Char
  | [] => []
  | c :: cs =>
    if (rstripList p cs).isEmpty && p c then [] else c :: rstripList p cs

/-- Python two-sided `strip`: drop characters satisfying `p` from both ends. -/
def pyStrip (p : Char → Bool) (l : List Char) : List Char :=
  rstripList p (l.dropWhile p)

/-- build.py line 99, title branch:
`re.sub(r"[^a-z0-9-]+", "-", title.lower()).strip("-")`. -/
def slugFromTitle (title : String) : String :=
  String.mk (pyStrip (· == '-') (collapseRuns isSlugChar (title.data.map pyToLower)))

/-- The slug rule exactly as claim C1 words it: lowercase the title, collapse
every run of NON-ALPHANUMERIC characters (so in particular runs of hyphens)
to a single hyphen, trim leading and trailing hyphens. -/
def slugC1Rule (title : String) : String :=
  String.mk (pyStrip (· == '-') (collapseRuns isAlnumLower (title.data.map pyToLower)))

example : slugFromTitle ("Hello, World!") = "hello-world" := by decide
example : slugFromTitle ("a--b") = "a--b" := by decide
example : slugC1Rule ("a--b") = "a-b" := by decide
example : slugFromTitle ("a -- b") = "a----b" := by decide

/-! ## Lemmas about the slug pipeline -/

theorem pyToLower_of_isSlugChar {c : Char} (h : isSlugChar c = true) :
    pyToLower c = c := by
  simp only [isSlugChar, Bool.or_eq_true, Bool.and_eq_true, decide_eq_true_eq,
    beq_iff_eq] at h
  unfold pyToLower
  rcases h with (⟨h1, _⟩ | ⟨h1, h2⟩) | h1
  · have a1 : (97 : ℕ) ≤ c.val.toNat := Char.le_def.mp h1
    have : ('A' ≤ c && c ≤ 'Z') = false := by
      simp only [Bool.and_eq_false_iff, decide_eq_false_iff_not]
      right
      intro h4
      have a2 : c.val.toNat ≤ 90 := Char.le_def.mp h4
      omega
    simp [this]
  · have a2 : c.val.toNat ≤ 57 := Char.le_def.mp h2
    have : ('A' ≤ c && c ≤ 'Z') = false := by
      simp only [Bool.and_eq_false_iff, decide_eq_false_iff_not]
      left
      intro h3
      have a1 : (65 : ℕ) ≤ c.val.toNat := Char.le_def.mp h3
      omega
    simp [this]
  · subst h1
    decide

theorem collapseRunsAux_true_eq (good : Char → Bool) (l : List Char) :
    collapseRunsAux good true l = collapseRuns good (l.dropWhile (fun d => !good d)) := by
  induction l with
  | nil => rfl
  | cons c cs ih =>
    by_cases h : good c = true
    · simp [collapseRunsAux, collapseRuns, List.dropWhile_cons, h]
    · simp only [Bool.not_eq_true] at h
      simp [collapseRunsAux, List.dropWhile_cons, h, ih]

theorem collapseRuns_eq_spec (good : Char → Bool) (l : List Char) :
    collapseRuns good l = collapseRunsSpec good l := by
  match l with
  | [] =>
    rw [collapseRunsSpec]
    rfl
  | c :: cs =>
    rw [collapseRunsSpec]
    by_cases h : good c = true
    · simp only [h, if_true]
      rw [← collapseRuns_eq_spec good cs]
      simp [collapseRuns, collapseRunsAux, h]
    · simp only [Bool.not_eq_true] at h
      simp only [h, Bool.false_eq_true, if_false]
      rw [← collapseRuns_eq_spec good (cs.dropWhile (fun d => !good d))]
      simp [collapseRuns, collapseRunsAux, h, collapseRunsAux_true_eq]
termination_by l.length
decreasing_by
  · simp
  · simp only [List.length_cons]
    exact Nat.lt_succ_of_le (List.dropWhile_sublist _).length_le

theorem mem_collapseRunsAux {good : Char → Bool} (hg : good '-' = true)
    (l : List Char) : ∀ b, ∀ c ∈ collapseRunsAux good b l, good c = true := by
  induction l with
  | nil => intro b c hc; simp [collapseRunsAux] at hc
  | cons d ds ih =>
    intro b c hc
    by_cases h : good d = true
    · simp only [collapseRunsAux, h, if_true, List.mem_cons] at hc
      rcases hc with rfl | hc
      · exact h
      · exact ih false c hc
    · simp only [Bool.not_eq_true] at h
      cases b with
      | true =>
        simp only [collapseRunsAux, h, Bool.false_eq_true, if_false, if_true] at hc
        exact ih true c hc
      | false =>
        simp only [collapseRunsAux, h, Bool.false_eq_true, if_false,
          List.mem_cons] at hc
        rcases hc with rfl | hc
        · exact hg
        · exact ih true c hc

theorem collapseRunsAux_of_all_good {good : Char → Bool} {l : List Char}
    (h : ∀ c ∈ l, good c = true) : ∀ b, collapseRunsAux good b l = l := by
  induction l with
  | nil => intro b; rfl
  | cons d ds ih =>
    intro b
    have hd := h d (by simp)
    have ihf := ih (fun c hc => h c (List.mem_cons_of_mem d hc)) false
    simp [collapseRunsAux, hd, ihf]

theorem mem_rstripList {p : Char → Bool} {l : List Char} :
    ∀ c ∈ rstripList p l, c ∈ l := by
  induction l with
  | nil => simp [rstripList]
  | cons d ds ih =>
    intro c hc
    rw [rstripList] at hc
    split at hc
    · simp at hc
    · rcases List.mem_cons.mp hc with rfl | hc
      · simp
      · exact List.mem_cons_of_mem d (ih c hc)

theorem getLast?_rstripList {p : Char → Bool} {l : List Char} {c : Char}
    (h : (rstripList p l).getLast? = some c) : p c = false := by
  induction l with
  | nil => simp [rstripList] at h
  | cons d ds ih =>
    rw [rstripList] at h
    split at h
    · simp at h
    · rename_i hcond
      cases hr : rstripList p ds with
      | nil =>
        rw [hr] at h
        simp only [List.getLast?_singleton, Option.some_inj] at h
        subst h
        rw [hr] at hcond
        simpa using hcond
      | cons e es =>
        apply ih
        rw [hr] at h ⊢
        rwa [List.getLast?_cons_cons] at h

theorem rstripList_of_getLast? {p : Char → Bool} {l : List Char}
    (h : ∀ c, l.getLast? = some c → p c = false) : rstripList p l = l := by
  induction l with
  | nil => rfl
  | cons d ds ih =>
    cases ds with
    | nil =>
      have hd := h d (by simp)
      simp [rstripList, hd]
    | cons e es =>
      have hds : rstripList p (e :: es) = e :: es :=
        ih (fun c hc => h c (by rw [List.getLast?_cons_cons]; exact hc))
      rw [rstripList, hds]
      simp

theorem head?_dropWhile {p : Char → Bool} {l : List Char} {c : Char}
    (h : (l.dropWhile p).head? = some c) : p c = false := by
  induction l with
  | nil => simp at h
  | cons d ds ih =>
    rw [List.dropWhile_cons] at h
    split at h
    · exact ih h
    · rename_i hd
      simp only [List.head?_cons, Option.some_inj] at h
      subst h
      simpa using hd

theorem dropWhile_of_head? {p : Char → Bool} {l : List Char}
    (h : ∀ c, l.head? = some c → p c = false) : l.dropWhile p = l := by
  cases l with
  | nil => rfl
  | cons d ds =>
    have hd := h d rfl
    simp [List.dropWhile_cons, hd]

theorem mem_pyStrip {p : Char → Bool} {l : List Char} :
    ∀ c ∈ pyStrip p l, c ∈ l := by
  intro c hc
  exact (List.dropWhile_sublist p).subset (mem_rstripList c hc)

theorem rstripList_nil_or_head? {p : Char → Bool} (l : List Char) :
    rstripList p l = [] ∨ (rstripList p l).head? = l.head? := by
  cases l with
  | nil => left; rfl
  | cons d ds =>
    rw [rstripList]
    split
    · left; rfl
    · right; rfl

theorem head?_pyStrip {p : Char → Bool} {l : List Char} {c : Char}
    (h : (pyStrip p l).head? = some c) : p c = false := by
  rw [pyStrip] at h
  rcases rstripList_nil_or_head? (p := p) (l.dropWhile p) with he | hh
  · rw [he] at h
    simp at h
  · rw [hh] at h
    exact head?_dropWhile h

theorem getLast?_pyStrip {p : Char → Bool} {l : List Char} {c : Char}
    (h : (pyStrip p l).getLast? = some c) : p c = false :=
  getLast?_rstripList h

theorem pyStrip_fix {p : Char → Bool} {l : List Char}
    (hh : ∀ c, l.head? = some c → p c = false)
    (hl : ∀ c, l.getLast? = some c → p c = false) : pyStrip p l = l := by
  rw [pyStrip, dropWhile_of_head? hh, rstripList_of_getLast? hl]

/-! ## Front-matter values and the fallback chain (build.py lines 96-100)

```
fm, body = parse_frontmatter(raw)
title = fm.get("title") or p.stem
slug = fm.get("slug") or re.sub(r"[^a-z0-9-]+", "-", title.lower()).strip("-")
date_str = fm.get("date") or datetime.date.today().isoformat()
```
-/

/-- A YAML scalar as it reaches the front-matter fallback chain: the YAML
null value or a string.  Python truthiness: null and `""` are falsy, any
non-empty string is truthy. -/
inductive YVal
  | vnull
  | vstr (s : String)
deriving DecidableEq

/-- A parsed front-matter mapping (a Python `dict`), as an association list;
`dict.get` is `List.lookup` (dict keys are unique, so first match is the
match). -/
abbrev Meta : Type := List (String × YVal)

/-- Python `fm.get(k) or default` for string-valued fields: a missing key,
a null value and the empty string are all falsy and select `default`. -/
def pyOrStr (v : Option YVal) (d : String) : String :=
  match v with
  | some (.vstr s) => if s = "" then d else s
  | _ => d

/-- build.py line 98: `title = fm.get("title") or p.stem`. -/
def effTitle (fm : Meta) (stem : String) : String :=
  pyOrStr (fm.lookup ("title")) stem

/-- build.py line 99:
`slug = fm.get("slug") or re.sub(r"[^a-z0-9-]+", "-", title.lower()).strip("-")`. -/
def effSlug (fm : Meta) (stem : String) : String :=
  pyOrStr (fm.lookup ("slug")) (slugFromTitle (effTitle fm stem))

/-- build.py line 100:
`date_str = fm.get("date") or datetime.date.today().isoformat()`. -/
def effDateStr (fm : Meta) (today : String) : String :=
  pyOrStr (fm.lookup ("date")) today

/-- No explicit slug override in the front matter: the key is absent, null,
or the empty string (all falsy in Python). -/
def NoSlugOverride (fm : Meta) : Prop :=
  fm.lookup ("slug") = none ∨ fm.lookup ("slug") = some YVal.vnull ∨
    fm.lookup ("slug") = some (YVal.vstr (""))

/-- A key that is present in the mapping but with a falsy value. -/
def IsFalsyEntry (v : Option YVal) : Prop :=
  v = some YVal.vnull ∨ v = some (YVal.vstr (""))

/-! ## Claim C1 -/

/-- Claim C1, counterexample: the derivation does NOT collapse runs of
hyphens.  For the title `"a--b"` (no slug override) the code produces the
slug `"a--b"`, while the claim's rule (collapse every non-alphanumeric run,
hyphens included, to one hyphen) produces `"a-b"`. -/
theorem claim_C1_counterexample :
    effSlug [("title", YVal.vstr ("a--b"))] "post1" = "a--b" ∧
    slugC1Rule ("a--b") = "a-b" ∧
    effSlug [("title", YVal.vstr ("a--b"))] "post1" ≠ slugC1Rule ("a--b") :=
  ⟨by decide, by decide, by decide⟩

/-- Claim C1 (amended): for a post with no explicit slug override, the slug
is obtained from the title by lowercasing and replacing every maximal run of
characters other than lowercase ASCII letters, digits and hyphens by a
single hyphen — existing hyphens are kept verbatim, so hyphen runs are NOT
collapsed — and trimming leading and trailing hyphens. -/
theorem claim_C1_amended (fm : Meta) (stem : String) (h : NoSlugOverride fm) :
    effSlug fm stem =
      String.mk (pyStrip (· == '-')
        (collapseRunsSpec isSlugChar ((effTitle fm stem).data.map pyToLower))) := by
  have hcode : effSlug fm stem = slugFromTitle (effTitle fm stem) := by
    rcases h with h | h | h <;> simp [effSlug, pyOrStr, h]
  rw [hcode, slugFromTitle, collapseRuns_eq_spec]

/-- Concrete instance of `claim_C1_amended`. -/
theorem claim_C1_amended_witness :
    NoSlugOverride [("title", YVal.vstr ("My -- Post!"))] ∧
    effSlug [("title", YVal.vstr ("My -- Post!"))] "stem" =
      String.mk (pyStrip (· == '-')
        (collapseRunsSpec isSlugChar
          ((effTitle [("title", YVal.vstr ("My -- Post!"))] "stem").data.map pyToLower))) :=
  ⟨Or.inl (by decide), claim_C1_amended [("title", YVal.vstr ("My -- Post!"))] "stem"
    (Or.inl (by decide))⟩

/-! ## Claim C6 -/

/-- "Slug-shaped" exactly as claim C6 words it: only lowercase alphanumerics
and hyphens, with no leading or trailing hyphen. -/
def SlugShaped (s : String) : Prop :=
  (∀ c ∈ s.data, isSlugChar c = true) ∧
    s.data.head? ≠ some '-' ∧ s.data.getLast? ≠ some '-'

theorem map_pyToLower_of_all_good {l : List Char}
    (h : ∀ c ∈ l, isSlugChar c = true) : l.map pyToLower = l := by
  induction l with
  | nil => rfl
  | cons d ds ih =>
    rw [List.map_cons, pyToLower_of_isSlugChar (h d (by simp)),
      ih (fun c hc => h c (List.mem_cons_of_mem d hc))]

theorem slugFromTitle_of_slugShaped {s : String} (h : SlugShaped s) :
    slugFromTitle s = s := by
  obtain ⟨hall, hh, hl⟩ := h
  rw [slugFromTitle, map_pyToLower_of_all_good hall]
  rw [show collapseRuns isSlugChar s.data = s.data from
    collapseRunsAux_of_all_good hall false]
  have hh' : ∀ c, s.data.head? = some c → ((c == '-') = false) := by
    intro c hc
    simp only [beq_eq_false_iff_ne]
    intro hcd
    subst hcd
    exact hh hc
  have hl' : ∀ c, s.data.getLast? = some c → ((c == '-') = false) := by
    intro c hc
    simp only [beq_eq_false_iff_ne]
    intro hcd
    subst hcd
    exact hl hc
  rw [pyStrip_fix hh' hl']

theorem slugShaped_slugFromTitle (t : String) : SlugShaped (slugFromTitle t) := by
  refine ⟨?_, ?_, ?_⟩
  · intro c hc
    simp only [slugFromTitle] at hc
    exact mem_collapseRunsAux (by decide) _ false c (mem_pyStrip c hc)
  · intro hcon
    simp only [slugFromTitle] at hcon
    have := head?_pyStrip hcon
    simp at this
  · intro hcon
    simp only [slugFromTitle] at hcon
    have := getLast?_pyStrip hcon
    simp at this

/-- Claim C6: slug derivation is idempotent (deriving twice equals deriving
once), and every already-slug-shaped string (lowercase alphanumerics and
hyphens, no leading/trailing hyphen) is returned unchanged. -/
theorem claim_C6 (t s : String) (hs : SlugShaped s) :
    slugFromTitle (slugFromTitle t) = slugFromTitle t ∧ slugFromTitle s = s :=
  ⟨slugFromTitle_of_slugShaped (slugShaped_slugFromTitle t),
    slugFromTitle_of_slugShaped hs⟩

/-- Concrete instance of `claim_C6`. -/
theorem claim_C6_witness :
    SlugShaped ("a--b9") ∧
    (slugFromTitle (slugFromTitle ("A  B!")) = slugFromTitle ("A  B!") ∧
      slugFromTitle ("a--b9") = "a--b9") :=
  ⟨⟨by decide, by decide, by decide⟩,
    claim_C6 ("A  B!") ("a--b9") ⟨by decide, by decide, by decide⟩⟩

/-! ## Claim C10 -/

/-- Claim C10: in the fallback chain of build.py lines 98-100, a
present-but-falsy front-matter value (YAML null or the empty string)
triggers exactly the fallback: the title falls back to the filename stem,
the slug to the title-derived slug, and the date string to the current run
date (instead of failing the run). -/
theorem claim_C10 (fm : Meta) (stem today : String) :
    (IsFalsyEntry (fm.lookup ("title")) → effTitle fm stem = stem) ∧
    (IsFalsyEntry (fm.lookup ("slug")) →
      effSlug fm stem = slugFromTitle (effTitle fm stem)) ∧
    (IsFalsyEntry (fm.lookup ("date")) → effDateStr fm today = today) := by
  refine ⟨?_, ?_, ?_⟩
  · intro h
    rcases h with h | h <;> simp [effTitle, pyOrStr, h]
  · intro h
    rcases h with h | h <;> simp [effSlug, pyOrStr, h]
  · intro h
    rcases h with h | h <;> simp [effDateStr, pyOrStr, h]

/-- Concrete instance of `claim_C10`: all three keys present and falsy. -/
theorem claim_C10_witness :
    effTitle [("title", YVal.vstr ("")), ("slug", YVal.vnull), ("date", YVal.vstr (""))]
        "my-post" = "my-post" ∧
    effSlug [("title", YVal.vstr ("")), ("slug", YVal.vnull), ("date", YVal.vstr (""))]
        "my-post" =
      slugFromTitle (effTitle
        [("title", YVal.vstr ("")), ("slug", YVal.vnull), ("date", YVal.vstr (""))]
        "my-post") ∧
    effDateStr [("title", YVal.vstr ("")), ("slug", YVal.vnull), ("date", YVal.vstr (""))]
        "2026-10-12" = "2026-10-12" := by
  have h := claim_C10
    [("title", YVal.vstr ("")), ("slug", YVal.vnull), ("date", YVal.vstr (""))]
    "my-post" "2026-10-12"
  exact ⟨h.1 (Or.inr (by decide)), h.2.1 (Or.inl (by decide)),
    h.2.2 (Or.inr (by decide))⟩

/-! ## Front-matter parsing (build.py lines 18-23)

```
def parse_frontmatter(text):
    if text.startswith("---"):
        _, fm, body = text.split("---", 2)
        data = yaml.safe_load(fm) or {}
        return data, body.strip()
    return {}, text
```
-/

/-- Split at the LEFTMOST occurrence of `sep` (scanning left to right, as
Python `str.split` does): `some (a, b)` with `l = a ++ sep ++ b`, or `none`
when `sep` does not occur in `l`. -/
def splitOnceList (sep : List Char) : List Char → Option (List Char × List Char)
  | [] => if sep.isEmpty then some ([], []) else none
  | c :: cs =>
    if sep.isPrefixOf (c :: cs) then some ([], (c :: cs).drop sep.length)
    else
      match splitOnceList sep cs with
      | some (a, b) => some (c :: a, b)
      | none => none

/-- Python `text.split(sep, 2)` (maxsplit 2): split at the first two
occurrences of `sep`; the third part keeps any later occurrences verbatim. -/
def pySplit2 (sep l : List Char) : List (List Char) :=
  match splitOnceList sep l with
  | none => [l]
  | some (a, r1) =>
    match splitOnceList sep r1 with
    | none => [a, r1]
    | some (b, r2) => [a, b, r2]

/-- The front-matter delimiter `"---"`. -/
def fmDelim : List Char := ['-', '-', '-']

/-- build.py `parse_frontmatter`, with `yaml.safe_load` abstracted as the
parameter `yamlLoad`.  `.error ()` models the exception `safe_load` raises
on malformed metadata (a fatal parse error, nothing catches it); `.ok none`
models a falsy success — YAML null for an empty block — turned into `{}` by
the `or {}`; `.ok (some m)` a parsed mapping.  The overall `none` models an
uncaught exception: either that YAML error, or the `ValueError` raised by
the unpacking `_, fm, body = text.split("---", 2)` when the split yields
fewer than three parts. -/
def parse_frontmatter (yamlLoad : String → Except Unit (Option Meta))
    (text : String) : Option (Meta × String) :=
  if fmDelim.isPrefixOf text.data then
    match pySplit2 fmDelim text.data with
    | [_, fm, body] =>
      match yamlLoad (String.mk fm) with
      | .error _ => none
      | .ok v => some (v.getD [], String.mk (pyStrip isPyWs body))
    | _ => none
  else
    some ([], text)

/-- `sep` occurs contiguously inside `l`. -/
def OccursIn (sep l : List Char) : Prop := ∃ a b, l = a ++ sep ++ b

/-- Number of (possibly overlapping) occurrences of `sep` in `l`, counted by
start position. -/
def countOccur (sep : List Char) : List Char → Nat
  | [] => if sep.isEmpty then 1 else 0
  | c :: cs => (if sep.isPrefixOf (c :: cs) then 1 else 0) + countOccur sep cs

theorem isPrefixOf_iff_exists {sep l : List Char} :
    sep.isPrefixOf l = true ↔ ∃ t, l = sep ++ t := by
  induction sep generalizing l with
  | nil => simp [List.isPrefixOf]
  | cons c cs ih =>
    cases l with
    | nil => simp [List.isPrefixOf]
    | cons d ds =>
      simp only [List.isPrefixOf, Bool.and_eq_true, beq_iff_eq, ih]
      constructor
      · rintro ⟨rfl, t, rfl⟩
        exact ⟨t, rfl⟩
      · rintro ⟨t, ht⟩
        injection ht with h1 h2
        exact ⟨h1.symm, t, h2⟩

theorem occursIn_cons_iff {sep : List Char} {c : Char} {cs : List Char} :
    OccursIn sep (c :: cs) ↔ (∃ t, c :: cs = sep ++ t) ∨ OccursIn sep cs := by
  constructor
  · rintro ⟨a, b, hab⟩
    cases a with
    | nil => exact Or.inl ⟨b, by simpa using hab⟩
    | cons x xs =>
      injection hab with h1 h2
      subst h1
      exact Or.inr ⟨xs, b, h2⟩
  · rintro (⟨t, ht⟩ | ⟨a, b, hab⟩)
    · exact ⟨[], t, by simpa using ht⟩
    · exact ⟨c :: a, b, by simp [hab]⟩

theorem splitOnceList_eq_none_iff {sep : List Char} (hsep : sep ≠ [])
    (l : List Char) : splitOnceList sep l = none ↔ ¬ OccursIn sep l := by
  induction l with
  | nil =>
    have : ¬ OccursIn sep [] := by
      rintro ⟨a, b, hab⟩
      have := congrArg List.length hab
      simp [List.length_append] at this
      have : sep.length = 0 := by omega
      exact hsep (List.length_eq_zero.mp this)
    simp [splitOnceList, List.isEmpty_iff, hsep, this]
  | cons c cs ih =>
    rw [splitOnceList]
    by_cases hp : sep.isPrefixOf (c :: cs) = true
    · obtain ⟨t, ht⟩ := isPrefixOf_iff_exists.mp hp
      have hocc : OccursIn sep (c :: cs) := ⟨[], t, by simpa using ht⟩
      simp [hp, hocc]
    · have hp' : sep.isPrefixOf (c :: cs) = false := Bool.eq_false_iff.mpr hp
      rw [hp']
      have hocc : OccursIn sep (c :: cs) ↔ OccursIn sep cs := by
        rw [occursIn_cons_iff]
        constructor
        · rintro (⟨t, ht⟩ | h)
          · exact absurd (isPrefixOf_iff_exists.mpr ⟨t, ht⟩) (by simp [hp'])
          · exact h
        · exact Or.inr
      rw [hocc, ← ih]
      cases hs : splitOnceList sep cs with
      | none => simp
      | some ab => cases ab with | mk a b => simp

theorem splitOnceList_of_isPrefixOf {sep l : List Char}
    (h : sep.isPrefixOf l = true) :
    splitOnceList sep l = some ([], l.drop sep.length) := by
  cases l with
  | nil =>
    obtain ⟨t, ht⟩ := isPrefixOf_iff_exists.mp h
    have hlen := congrArg List.length ht
    simp only [List.length_nil, List.length_append] at hlen
    have hsep : sep = [] := List.length_eq_zero.mp (by omega)
    subst hsep
    simp [splitOnceList]
  | cons c cs =>
    rw [splitOnceList, if_pos h]

/-- If `l = a ++ sep ++ b` and no occurrence of `sep` starts before position
`a.length`, then the leftmost split is exactly `(a, b)`. -/
theorem splitOnceList_eq_some_of {sep : List Char} :
    ∀ {l a b : List Char}, l = a ++ sep ++ b →
      (∀ k, k < a.length → sep.isPrefixOf (l.drop k) = false) →
      splitOnceList sep l = some (a, b) := by
  intro l a
  induction a generalizing l with
  | nil =>
    intro b hl _
    subst hl
    have hpre : sep.isPrefixOf (([] : List Char) ++ sep ++ b) = true :=
      isPrefixOf_iff_exists.mpr ⟨b, by simp⟩
    rw [splitOnceList_of_isPrefixOf hpre]
    simp [List.drop_left']
  | cons x xs ih =>
    intro b hl hk
    subst hl
    have h0 : sep.isPrefixOf ((x :: xs) ++ sep ++ b) = false := by
      have := hk 0 (by simp)
      simpa using this
    have hrec : splitOnceList sep (xs ++ sep ++ b) = some (xs, b) := by
      apply ih rfl
      intro k hklt
      have := hk (k + 1) (by simp [Nat.succ_lt_succ hklt])
      simpa using this
    have hcons : (x :: xs) ++ sep ++ b = x :: (xs ++ sep ++ b) := by simp
    rw [hcons, splitOnceList]
    have h0' : sep.isPrefixOf (x :: (xs ++ sep ++ b)) = false := by
      rw [← hcons]
      exact h0
    rw [h0']
    simp only [Bool.false_eq_true, if_false]
    rw [hrec]

theorem parse_frontmatter_of_not_delim
    {yamlLoad : String → Except Unit (Option Meta)}
    {text : String} (hp : fmDelim.isPrefixOf text.data = false) :
    parse_frontmatter yamlLoad text = some ([], text) := by
  unfold parse_frontmatter
  rw [hp]
  simp

theorem parse_frontmatter_of_split_ok
    {yamlLoad : String → Except Unit (Option Meta)}
    {text : String} {fmSeg bodySeg : List Char} {v : Option Meta}
    (hp : fmDelim.isPrefixOf text.data = true)
    (hs : splitOnceList fmDelim (text.data.drop 3) = some (fmSeg, bodySeg))
    (hy : yamlLoad (String.mk fmSeg) = .ok v) :
    parse_frontmatter yamlLoad text =
      some (v.getD [], String.mk (pyStrip isPyWs bodySeg)) := by
  unfold parse_frontmatter
  rw [if_pos hp]
  unfold pySplit2
  rw [splitOnceList_of_isPrefixOf hp]
  show (match
      (match splitOnceList fmDelim (text.data.drop 3) with
        | none => [[], text.data.drop 3]
        | some (b, r2) => [[], b, r2]) with
    | [_, fm, body] =>
      match yamlLoad (String.mk fm) with
      | .error _ => none
      | .ok v => some (v.getD [], String.mk (pyStrip isPyWs body))
    | _ => none) = _
  rw [hs]
  dsimp only
  rw [hy]

theorem parse_frontmatter_of_split_yamlerr
    {yamlLoad : String → Except Unit (Option Meta)}
    {text : String} {fmSeg bodySeg : List Char}
    (hp : fmDelim.isPrefixOf text.data = true)
    (hs : splitOnceList fmDelim (text.data.drop 3) = some (fmSeg, bodySeg))
    (hy : yamlLoad (String.mk fmSeg) = .error ()) :
    parse_frontmatter yamlLoad text = none := by
  unfold parse_frontmatter
  rw [if_pos hp]
  unfold pySplit2
  rw [splitOnceList_of_isPrefixOf hp]
  show (match
      (match splitOnceList fmDelim (text.data.drop 3) with
        | none => [[], text.data.drop 3]
        | some (b, r2) => [[], b, r2]) with
    | [_, fm, body] =>
      match yamlLoad (String.mk fm) with
      | .error _ => none
      | .ok v => some (v.getD [], String.mk (pyStrip isPyWs body))
    | _ => none) = _
  rw [hs]
  dsimp only
  rw [hy]

theorem parse_frontmatter_of_nosplit
    {yamlLoad : String → Except Unit (Option Meta)}
    {text : String}
    (hp : fmDelim.isPrefixOf text.data = true)
    (hs : splitOnceList fmDelim (text.data.drop 3) = none) :
    parse_frontmatter yamlLoad text = none := by
  unfold parse_frontmatter
  rw [if_pos hp]
  unfold pySplit2
  rw [splitOnceList_of_isPrefixOf hp]
  show (match
      (match splitOnceList fmDelim (text.data.drop 3) with
        | none => [[], text.data.drop 3]
        | some (b, r2) => [[], b, r2]) with
    | [_, fm, body] =>
      match yamlLoad (String.mk fm) with
      | .error _ => none
      | .ok v => some (v.getD [], String.mk (pyStrip isPyWs body))
    | _ => none) = _
  rw [hs]

/-! ## Claim C9 -/

/-- Claim C9, counterexample: `"---a---b"` begins with the delimiter and
contains exactly ONE further occurrence of `"---"` (fewer than two), yet
the split yields three parts and `parse_frontmatter` returns a result
instead of raising.  (On this input `yaml.safe_load("a")` succeeds, so no
YAML error path is taken; the abstract `yamlLoad` here returns a falsy
success, as for an empty mapping.) -/
theorem claim_C9_counterexample :
    countOccur fmDelim (("---a---b").data.drop 3) = 1 ∧
    parse_frontmatter (fun _ => .ok none) ("---a---b") = some ([], "b") ∧
    parse_frontmatter (fun _ => .ok none) ("---a---b") ≠ none :=
  ⟨by decide, by decide, by decide⟩

/-- Claim C9 (amended): for every input that begins with `"---"` and has NO
further occurrence of `"---"` after the first three characters, the
three-way unpacking of `text.split("---", 2)` fails and the parser raises,
never returning a result — whatever the YAML parser would do. -/
theorem claim_C9_amended (yamlLoad : String → Except Unit (Option Meta))
    (text : String) (hp : fmDelim.isPrefixOf text.data = true)
    (hno : ¬ OccursIn fmDelim (text.data.drop 3)) :
    parse_frontmatter yamlLoad text = none := by
  apply parse_frontmatter_of_nosplit hp
  exact (splitOnceList_eq_none_iff (by decide) (text.data.drop 3)).mpr hno

/-- Concrete instance of `claim_C9_amended`: `"---abc"` lacks a second
delimiter. -/
theorem claim_C9_amended_witness :
    parse_frontmatter (fun _ => .ok none) ("---abc") = none :=
  claim_C9_amended (fun _ => .ok none) ("---abc") (by decide)
    ((splitOnceList_eq_none_iff (by decide) (("---abc").data.drop 3)).mp
      (by decide))

/-! ## Claim C2 -/

/-- Claim C2, counterexample: the body is NOT the remainder after the second
delimiter unchanged — it is stripped of surrounding whitespace.  For
`"---m--- body "` the remainder after the second `"---"` is `" body "`, but
the parser returns `"body"`. -/
theorem claim_C2_counterexample :
    (parse_frontmatter (fun _ => .ok none) ("---m--- body ")).map Prod.snd =
      some ("body") ∧
    (parse_frontmatter (fun _ => .ok none) ("---m--- body ")).map Prod.snd ≠
      some (" body ") :=
  ⟨by decide, by decide⟩

/-- Claim C2 (amended): if the text does not begin with `"---"` the parser
returns empty metadata and the whole text unchanged.  If it does, with
first delimiter-bounded segment `fmSeg` (no occurrence of `"---"` starts
inside it) and remainder `bodySeg` after the second delimiter, the segment
goes to the YAML parser: a YAML error propagates fatally, and on success
the parser returns the parsed mapping (null/falsy replaced by the empty
mapping) as the metadata and `bodySeg` STRIPPED of leading and trailing
whitespace — not `bodySeg` itself — as the body. -/
theorem claim_C2_amended (yamlLoad : String → Except Unit (Option Meta))
    (text : String) (fmSeg bodySeg : List Char)
    (hpre : fmDelim.isPrefixOf text.data = true)
    (hsplit : text.data.drop 3 = fmSeg ++ fmDelim ++ bodySeg)
    (hfirst : ∀ k, k < fmSeg.length →
      fmDelim.isPrefixOf ((text.data.drop 3).drop k) = false) :
    (∀ v : Option Meta, yamlLoad (String.mk fmSeg) = .ok v →
      parse_frontmatter yamlLoad text =
        some (v.getD [], String.mk (pyStrip isPyWs bodySeg))) ∧
    (yamlLoad (String.mk fmSeg) = .error () →
      parse_frontmatter yamlLoad text = none) ∧
    (∀ t : String, fmDelim.isPrefixOf t.data = false →
      parse_frontmatter yamlLoad t = some ([], t)) := by
  refine ⟨?_, ?_, ?_⟩
  · intro v hy
    exact parse_frontmatter_of_split_ok hpre
      (splitOnceList_eq_some_of hsplit hfirst) hy
  · intro hy
    exact parse_frontmatter_of_split_yamlerr hpre
      (splitOnceList_eq_some_of hsplit hfirst) hy
  · intro t ht
    exact parse_frontmatter_of_not_delim ht

/-- Concrete instance of `claim_C2_amended`: `"---t: v---  x "` parses to
the metadata segment `"t: v"` and the stripped body `"x"` when the YAML
parser succeeds on the segment. -/
theorem claim_C2_witness :
    parse_frontmatter (fun _ => .ok none) ("---t: v---  x ") =
      some ([], "x") := by
  have h := (claim_C2_amended (fun _ => .ok none) ("---t: v---  x ")
    ("t: v").data ("  x ").data (by decide) (by decide)
    (by decide)).1 none (by rfl)
  exact h.trans (by decide)

/-! ## Reading time (build.py lines 47-53)

```
def calculate_reading_time(text):
    clean_text = re.sub(r'<[^>]+>', '', text)
    words = len(clean_text.split())
    minutes = max(1, round(words / 200))
    return words, minutes
```
-/

/-- `re.sub(r'<[^>]+>', '', text)` as a left-to-right scan.  The state
`some buf` means a `<` has been read and `buf` holds (reversed) the
characters read since, none of which was `>`.  A closing `>` after at least
one such character completes a match of `<[^>]+>` and the whole span is
dropped; a `>` right after the `<` (the unmatched `<>`) and a `<` left
unclosed at the end of input are emitted verbatim, as the regex engine
leaves them and resumes scanning. -/
def stripTagsAux : Option (List Char) → List Char → List Char
  | none, [] => []
  | none, c :: cs =>
    if c = '<' then stripTagsAux (some []) cs
    else c :: stripTagsAux none cs
  | some buf, [] => '<' :: buf.reverse
  | some buf, c :: cs =>
    if c = '>' then
      if buf.isEmpty then '<' :: '>' :: stripTagsAux none cs
      else stripTagsAux none cs
    else stripTagsAux (some (c :: buf)) cs

/-- `re.sub(r'<[^>]+>', '', text)`: remove every match of `<[^>]+>`. -/
def stripTags (l : List Char) : List Char :=
  stripTagsAux none l

/-- `len(clean.split())` as a left-to-right scan: `inTok` records whether
the previous character belonged to a token. -/
def countWordsAux (inTok : Bool) : List Char → Nat
  | [] => 0
  | c :: cs =>
    if isPyWs c then countWordsAux false cs
    else (if inTok then 0 else 1) + countWordsAux true cs

/-- Python 3 `round(w / 200)`: round half to even (banker's rounding).
Exact integer model of the float expression for every `w < 2^53`, i.e. the
whole range where the IEEE double `w / 200` rounds to the same integer as
the exact rational. -/
def pyRoundDiv200 (w : Nat) : Nat :=
  if w % 200 < 100 then w / 200
  else if 100 < w % 200 then w / 200 + 1
  else if (w / 200) % 2 = 0 then w / 200 else w / 200 + 1

/-- build.py `calculate_reading_time`: `(word count, reading minutes)`. -/
def calculate_reading_time (text : String) : Nat × Nat :=
  (countWordsAux false (stripTags text.data),
    max 1 (pyRoundDiv200 (countWordsAux false (stripTags text.data))))

/-- Specification-side tokenisation: the list of maximal runs of
non-whitespace characters (Python `str.split()`). -/
def splitTokens (l : List Char) : List (List Char) :=
  match hm : l.dropWhile isPyWs with
  | [] => []
  | c :: cs =>
    ((c :: cs).takeWhile (fun d => !isPyWs d)) ::
      splitTokens ((c :: cs).dropWhile (fun d => !isPyWs d))
termination_by l.length
decreasing_by
  · have h1 : (c :: cs).length ≤ l.length := by
      rw [← hm]
      exact (List.dropWhile_sublist isPyWs).length_le
    have hc : isPyWs c = false := by
      have := head?_dropWhile (l := l) (p := isPyWs) (by rw [hm]; rfl)
      exact this
    have h2 : ((c :: cs).dropWhile (fun d => !isPyWs d)).length ≤ cs.length := by
      rw [List.dropWhile_cons]
      simp only [hc, Bool.not_false, if_true]
      exact (List.dropWhile_sublist _).length_le
    simp only [List.length_cons] at h1
    omega

/-- `r` is the round-half-to-even rounding of the rational `q`. -/
def IsPyRound (q : ℚ) (r : ℤ) : Prop :=
  |q - r| < 1/2 ∨ (|q - r| = 1/2 ∧ Even r)

example : calculate_reading_time ("<p>one two</p> three") = (3, 1) := by decide
example : pyRoundDiv200 100 = 0 := by decide
example : pyRoundDiv200 300 = 2 := by decide
example : pyRoundDiv200 500 = 2 := by decide
example : pyRoundDiv200 501 = 3 := by decide

theorem countWordsAux_false_dropWs (l : List Char) :
    countWordsAux false l = countWordsAux false (l.dropWhile isPyWs) := by
  induction l with
  | nil => rfl
  | cons c cs ih =>
    by_cases hc : isPyWs c = true
    · rw [List.dropWhile_cons, if_pos hc, ← ih]
      simp [countWordsAux, hc]
    · have hc' : isPyWs c = false := Bool.eq_false_iff.mpr hc
      rw [List.dropWhile_cons, if_neg (by simp [hc'])]

theorem countWordsAux_true_eq (l : List Char) :
    countWordsAux true l =
      countWordsAux false (l.dropWhile (fun d => !isPyWs d)) := by
  induction l with
  | nil => rfl
  | cons c cs ih =>
    by_cases hc : isPyWs c = true
    · rw [List.dropWhile_cons, if_neg (by simp [hc])]
      simp [countWordsAux, hc]
    · have hc' : isPyWs c = false := Bool.eq_false_iff.mpr hc
      rw [List.dropWhile_cons, if_pos (by simp [hc'])]
      simp [countWordsAux, hc', ih]

theorem splitTokens_eq_nil {l : List Char} (h : l.dropWhile isPyWs = []) :
    splitTokens l = [] := by
  rw [splitTokens]
  split
  · rfl
  · rename_i c cs hm
    rw [h] at hm
    cases hm

theorem splitTokens_eq_cons {l : List Char} {c : Char} {cs : List Char}
    (h : l.dropWhile isPyWs = c :: cs) :
    splitTokens l = ((c :: cs).takeWhile (fun d => !isPyWs d)) ::
      splitTokens ((c :: cs).dropWhile (fun d => !isPyWs d)) := by
  rw [splitTokens]
  split
  · rename_i hm
    rw [h] at hm
    cases hm
  · rename_i c' cs' hm
    rw [h] at hm
    injection hm with h1 h2
    subst h1
    subst h2
    rfl

theorem countWords_eq_splitTokens (l : List Char) :
    countWordsAux false l = (splitTokens l).length := by
  cases hm : l.dropWhile isPyWs with
  | nil =>
    rw [splitTokens_eq_nil hm, countWordsAux_false_dropWs, hm]
    rfl
  | cons c cs =>
    have hc : isPyWs c = false := head?_dropWhile (by rw [hm]; rfl)
    rw [splitTokens_eq_cons hm, countWordsAux_false_dropWs, hm]
    simp only [countWordsAux, hc, Bool.false_eq_true, if_false]
    rw [countWordsAux_true_eq, List.length_cons]
    have hstep : (c :: cs).dropWhile (fun d => !isPyWs d) =
        cs.dropWhile (fun d => !isPyWs d) := by
      rw [List.dropWhile_cons, if_pos (by simp [hc])]
    rw [hstep, countWords_eq_splitTokens (cs.dropWhile (fun d => !isPyWs d))]
    omega
termination_by l.length
decreasing_by
  have h1 : (c :: cs).length ≤ l.length := by
    rw [← hm]
    exact (List.dropWhile_sublist isPyWs).length_le
  have h2 := (List.dropWhile_sublist (l := cs) (fun d => !isPyWs d)).length_le
  simp only [List.length_cons] at h1
  omega

theorem pyRound_isPyRound (w : Nat) :
    IsPyRound ((w : ℚ) / 200) ((pyRoundDiv200 w : ℤ)) := by
  unfold pyRoundDiv200 IsPyRound
  have hmod : 200 * (w / 200) + w % 200 = w := Nat.div_add_mod w 200
  have hslt : w % 200 < 200 := Nat.mod_lt _ (by norm_num)
  set n := w / 200 with hn
  set m := w % 200 with hmdef
  have hq : (w : ℚ) / 200 = (n : ℚ) + (m : ℚ) / 200 := by
    have hw : (w : ℚ) = 200 * (n : ℚ) + (m : ℚ) := by exact_mod_cast hmod.symm
    rw [hw]
    ring
  rw [hq]
  by_cases h1 : m < 100
  · rw [if_pos h1]
    left
    have hexp : (n : ℚ) + (m : ℚ) / 200 - (((n : ℕ) : ℤ) : ℚ) = (m : ℚ) / 200 := by
      push_cast
      ring
    rw [hexp, abs_of_nonneg (by positivity)]
    rw [div_lt_div_iff₀ (by norm_num) (by norm_num)]
    have : (m : ℚ) < 100 := by exact_mod_cast h1
    linarith
  · rw [if_neg h1]
    by_cases h2 : 100 < m
    · rw [if_pos h2]
      left
      have hexp : (n : ℚ) + (m : ℚ) / 200 - (((n + 1 : ℕ) : ℤ) : ℚ) =
          (m : ℚ) / 200 - 1 := by
        push_cast
        ring
      rw [hexp]
      have hm200 : (m : ℚ) < 200 := by exact_mod_cast hslt
      have hneg : (m : ℚ) / 200 - 1 < 0 := by linarith
      rw [abs_of_neg hneg]
      have h100 : (100 : ℚ) < (m : ℚ) := by exact_mod_cast h2
      linarith
    · have h3 : m = 100 := by omega
      rw [if_neg h2, show ((m : ℚ)) = ((100 : ℕ) : ℚ) by rw [h3]]
      right
      constructor
      · by_cases hk : n % 2 = 0
        · rw [if_pos hk]
          have hexp : (n : ℚ) + ((100 : ℕ) : ℚ) / 200 - (((n : ℕ) : ℤ) : ℚ) =
              ((100 : ℕ) : ℚ) / 200 := by
            push_cast
            ring
          rw [hexp]
          rw [abs_of_nonneg (by positivity)]
          norm_num
        · rw [if_neg hk]
          have hexp : (n : ℚ) + ((100 : ℕ) : ℚ) / 200 - (((n + 1 : ℕ) : ℤ) : ℚ) =
              ((100 : ℕ) : ℚ) / 200 - 1 := by
            push_cast
            ring
          rw [hexp]
          rw [abs_of_nonpos (by norm_num)]
          norm_num
      · by_cases hk : n % 2 = 0
        · rw [if_pos hk, Int.even_coe_nat]
          exact Nat.even_iff.mpr hk
        · rw [if_neg hk, Int.even_coe_nat]
          rw [Nat.even_add_one]
          intro he
          rw [Nat.even_iff] at he
          omega

theorem pyRoundDiv200_mono {a b : Nat} (h : a ≤ b) :
    pyRoundDiv200 a ≤ pyRoundDiv200 b := by
  unfold pyRoundDiv200
  split_ifs <;> omega

/-! ## Claim C4 -/

/-- Claim C4: the reading-time estimator's word count is the number of
whitespace-delimited tokens left after tag removal, and its minutes value
is `round(words / 200)` — Python's round-half-to-even — floored at 1. -/
theorem claim_C4 (text : String) :
    (calculate_reading_time text).1 =
      (splitTokens (stripTags text.data)).length ∧
    ∃ r : ℤ, IsPyRound (((calculate_reading_time text).1 : ℚ) / 200) r ∧
      (calculate_reading_time text).2 = max 1 r.toNat := by
  refine ⟨countWords_eq_splitTokens _, ?_⟩
  refine ⟨((pyRoundDiv200 (countWordsAux false (stripTags text.data)) : ℕ) : ℤ),
    pyRound_isPyRound _, ?_⟩
  show max 1 (pyRoundDiv200 (countWordsAux false (stripTags text.data))) = _
  rw [Int.toNat_natCast]

/-! ## Claim C5 -/

/-- Claim C5: reading minutes are monotone in the word count, and at least 1
for every (in fact even empty) input. -/
theorem claim_C5 (t1 t2 t : String)
    (hw : (calculate_reading_time t1).1 ≤ (calculate_reading_time t2).1)
    (hne : t ≠ "") :
    (calculate_reading_time t1).2 ≤ (calculate_reading_time t2).2 ∧
    1 ≤ (calculate_reading_time t).2 := by
  constructor
  · exact max_le_max (le_refl 1) (pyRoundDiv200_mono hw)
  · exact le_max_left 1 _

/-- Concrete instance of `claim_C5`. -/
theorem claim_C5_witness :
    (calculate_reading_time ("hi")).2 ≤
      (calculate_reading_time ("hi there all")).2 ∧
    1 ≤ (calculate_reading_time ("x")).2 :=
  claim_C5 ("hi") ("hi there all") ("x") (by decide) (by decide)

/-! ## The post builder and the pipeline (build.py lines 92-137 and 160-173)

`build_posts` iterates over the post files in lexical filename order
(`sorted(SRC_POSTS.glob("*.md"))` — here: the order of the input list),
builds each page, collects summary records, and finally sorts them by date,
newest first (`posts.sort(key=lambda x: x["date"], reverse=True)`, a stable
sort).  `main` then feeds the summary list to the index and feed builders.
-/

/-- A source post file: filename stem (`p.stem`) and raw text. -/
structure SrcFile where
  stem : String
  raw : String
deriving DecidableEq

/-- The summary dict appended at build.py line 124.  The parsed datetime is
modelled as an integer ordinal (Python datetimes are totally ordered; the
`TypeError` on comparing naive with timezone-aware datetimes is outside this
model), the formatted date strings are produced by abstract formatters. -/
structure PostSummary where
  title : String
  slug : String
  date : Int
  iso_date : String
  human_date : String
  rfc2822 : String
  description : YVal
deriving DecidableEq

/-- The external-library functions the post builder calls, taken as
parameters: `yaml.safe_load`, `datetime.datetime.fromisoformat` (`none`
models `ValueError`), `strftime("%b %d, %Y")`, `.date().isoformat()`,
`email.utils.format_datetime`, the Markdown renderer, and the jinja2 post
template (`none` models any rendering error). -/
structure BuildEnv where
  yamlLoad : String → Except Unit (Option Meta)
  fromiso : String → Option Int
  fmtHuman : Int → String
  fmtIso : Int → String
  fmtRfc : Int → String
  mdToHtml : String → String
  renderPost : PostSummary → String → Nat × Nat → Option String

/-- build.py lines 94-124, one post file: parse the front matter, apply the
title/slug/date fallback chain, parse the date string (failure aborts),
render the page (failure aborts), and produce the summary record. -/
def buildOne (env : BuildEnv) (today : String) (p : SrcFile) :
    Except Unit PostSummary :=
  match parse_frontmatter env.yamlLoad p.raw with
  | none => .error ()
  | some (fm, body) =>
    match env.fromiso (effDateStr fm today) with
    | none => .error ()
    | some dt =>
      let html := env.mdToHtml body
      let s : PostSummary :=
        { title := effTitle fm p.stem
          slug := effSlug fm p.stem
          date := dt
          iso_date := env.fmtIso dt
          human_date := env.fmtHuman dt
          rfc2822 := env.fmtRfc dt
          description := (fm.lookup ("description")).getD (YVal.vstr "") }
      match env.renderPost s html (calculate_reading_time html) with
      | none => .error ()
      | some _ => .ok s

/-- The `for p in ...` loop of `build_posts`: first failure aborts the run. -/
def traversePosts (env : BuildEnv) (today : String) :
    List SrcFile → Except Unit (List PostSummary)
  | [] => .ok []
  | p :: ps =>
    match buildOne env today p with
    | .error e => .error e
    | .ok s =>
      match traversePosts env today ps with
      | .error e => .error e
      | .ok l => .ok (s :: l)

/-- Stable descending insertion: the new element is placed before the first
existing element whose date is not larger, so earlier input stays first on
ties. -/
def insertDesc (s : PostSummary) : List PostSummary → List PostSummary
  | [] => [s]
  | t :: ts =>
    if s.date < t.date then t :: insertDesc s ts
    else s :: t :: ts

/-- `posts.sort(key=lambda x: x["date"], reverse=True)`: a STABLE sort by
date, descending.  Any two stable sorts agree, so this insertion sort
produces exactly Python's (timsort) output. -/
def sortPostsDesc (l : List PostSummary) : List PostSummary :=
  l.foldr insertDesc []

/-- build.py `build_posts`: build every page, then sort new-to-old. -/
def build_posts (env : BuildEnv) (today : String) (files : List SrcFile) :
    Except Unit (List PostSummary) :=
  match traversePosts env today files with
  | .error e => .error e
  | .ok l => .ok (sortPostsDesc l)

/-- The pipeline outputs relevant to the summary list: the list itself and
the index and feed documents built from it. -/
structure SiteOutputs where
  posts : List PostSummary
  indexHtml : String
  feedXml : String

/-- build.py `main` from `build_posts` on: the index and feed builders run
only when every earlier step succeeded, and consume the sorted list. -/
def runPipeline (env : BuildEnv)
    (renderIndex renderFeed : List PostSummary → Option String)
    (today : String) (files : List SrcFile) : Except Unit SiteOutputs :=
  match build_posts env today files with
  | .error e => .error e
  | .ok posts =>
    match renderIndex posts with
    | none => .error ()
    | some idx =>
      match renderFeed posts with
      | none => .error ()
      | some feed => .ok ⟨posts, idx, feed⟩

/-! ## Lemmas about the stable sort -/

theorem mem_insertDesc {s x : PostSummary} {l : List PostSummary}
    (h : x ∈ insertDesc s l) : x = s ∨ x ∈ l := by
  induction l with
  | nil => simpa [insertDesc] using h
  | cons t ts ih =>
    rw [insertDesc] at h
    split at h
    · rcases List.mem_cons.mp h with rfl | h'
      · exact Or.inr (by simp)
      · rcases ih h' with rfl | h''
        · exact Or.inl rfl
        · exact Or.inr (List.mem_cons_of_mem t h'')
    · rcases List.mem_cons.mp h with rfl | h'
      · exact Or.inl rfl
      · exact Or.inr h'

theorem pairwise_insertDesc {s : PostSummary} {l : List PostSummary}
    (h : l.Pairwise (fun a b => b.date ≤ a.date)) :
    (insertDesc s l).Pairwise (fun a b => b.date ≤ a.date) := by
  induction l with
  | nil => simp [insertDesc]
  | cons t ts ih =>
    rw [insertDesc]
    rcases List.pairwise_cons.mp h with ⟨ht, hts⟩
    split
    · rename_i hlt
      refine List.pairwise_cons.mpr ⟨?_, ih hts⟩
      intro x hx
      rcases mem_insertDesc hx with rfl | hx'
      · exact le_of_lt hlt
      · exact ht x hx'
    · rename_i hge
      push_neg at hge
      refine List.pairwise_cons.mpr ⟨?_, h⟩
      intro x hx
      rcases List.mem_cons.mp hx with rfl | hx'
      · exact hge
      · exact le_trans (ht x hx') hge

theorem pairwise_sortPostsDesc (l : List PostSummary) :
    (sortPostsDesc l).Pairwise (fun a b => b.date ≤ a.date) := by
  induction l with
  | nil => simp [sortPostsDesc]
  | cons x xs ih => exact pairwise_insertDesc ih

theorem filter_insertDesc (s : PostSummary) (l : List PostSummary) (d : Int) :
    (insertDesc s l).filter (fun t => t.date == d) =
      if s.date == d then s :: l.filter (fun t => t.date == d)
      else l.filter (fun t => t.date == d) := by
  induction l with
  | nil =>
    rw [insertDesc]
    by_cases hs : s.date == d
    · simp [hs]
    · simp [List.filter_cons, Bool.eq_false_iff.mpr hs]
  | cons t ts ih =>
    rw [insertDesc]
    split
    · rename_i hlt
      rw [List.filter_cons, List.filter_cons]
      by_cases hs : (s.date == d) = true
      · have htne : (t.date == d) = false := by
          simp only [beq_iff_eq] at hs
          simp only [beq_eq_false_iff_ne]
          intro hteq
          rw [← hs] at hteq
          exact absurd hteq (ne_of_gt hlt)
        rw [htne]
        simp only [Bool.false_eq_true, if_false]
        rw [ih, if_pos hs]
      · have hs' : (s.date == d) = false := Bool.eq_false_iff.mpr hs
        rw [ih, hs']
        simp only [Bool.false_eq_true, if_false]
    · rw [List.filter_cons]

theorem filter_sortPostsDesc (l : List PostSummary) (d : Int) :
    (sortPostsDesc l).filter (fun t => t.date == d) =
      l.filter (fun t => t.date == d) := by
  induction l with
  | nil => rfl
  | cons x xs ih =>
    show (insertDesc x (sortPostsDesc xs)).filter _ = _
    rw [filter_insertDesc, List.filter_cons]
    by_cases hx : (x.date == d) = true
    · rw [if_pos hx, if_pos hx, ih]
    · have hx' : (x.date == d) = false := Bool.eq_false_iff.mpr hx
      rw [hx', if_neg (by simp [hx'])]
      simp only [Bool.false_eq_true, if_false]
      exact ih

/-! ## Claim C3 -/

/-- Claim C3: whenever the post builder returns a summary list, it is
sorted by date descending (pairwise non-increasing), and for each date the
summaries carrying it appear exactly in their input-enumeration order
(`l₀`, the per-file results in lexical filename order) — a stable
descending sort.  `runPipeline` hands this very list to the index and feed
builders. -/
theorem claim_C3 (env : BuildEnv) (today : String) (files : List SrcFile)
    (l₀ l : List PostSummary)
    (htrav : traversePosts env today files = .ok l₀)
    (hbuild : build_posts env today files = .ok l) :
    l.Pairwise (fun a b => b.date ≤ a.date) ∧
    ∀ d : Int, l.filter (fun s => s.date == d) =
      l₀.filter (fun s => s.date == d) := by
  have hl : l = sortPostsDesc l₀ := by
    unfold build_posts at hbuild
    rw [htrav] at hbuild
    simp only [Except.ok.injEq] at hbuild
    exact hbuild.symm
  subst hl
  exact ⟨pairwise_sortPostsDesc l₀, fun d => filter_sortPostsDesc l₀ d⟩

/-- Concrete environment for the pipeline witnesses: the YAML parser reads
the whole front-matter segment as the date string, the date parser knows
two dates, rendering always succeeds. -/
def envEx : BuildEnv :=
  { yamlLoad := fun s => .ok (some [("date", YVal.vstr s)])
    fromiso := fun s =>
      if s = "2024-01-01" then some 1
      else if s = "2024-06-01" then some 2 else none
    fmtHuman := fun _ => ""
    fmtIso := fun _ => ""
    fmtRfc := fun _ => ""
    mdToHtml := fun s => s
    renderPost := fun _ _ _ => some "" }

/-- The summary the witness run produces for stem `st` and date `d`. -/
def mkSummaryEx (st : String) (d : Int) : PostSummary :=
  { title := st, slug := st, date := d, iso_date := "", human_date := "",
    rfc2822 := "", description := YVal.vstr "" }

/-- Concrete instance of `claim_C3`: files dated 2024-01-01, 2024-06-01,
2024-01-01 (in this enumeration order) come out as June, then the two
January posts in their original relative order. -/
theorem claim_C3_witness :
    ([mkSummaryEx ("b-second") 2, mkSummaryEx ("a-first") 1,
        mkSummaryEx ("c-third") 1].Pairwise
      (fun a b => b.date ≤ a.date)) ∧
    ∀ d : Int,
      ([mkSummaryEx ("b-second") 2, mkSummaryEx ("a-first") 1,
          mkSummaryEx ("c-third") 1].filter (fun s => s.date == d)) =
        ([mkSummaryEx ("a-first") 1, mkSummaryEx ("b-second") 2,
            mkSummaryEx ("c-third") 1].filter (fun s => s.date == d)) :=
  claim_C3 envEx ("2026-01-01")
    [⟨"a-first", "---2024-01-01---x"⟩, ⟨"b-second", "---2024-06-01---y"⟩,
      ⟨"c-third", "---2024-01-01---z"⟩]
    [mkSummaryEx ("a-first") 1, mkSummaryEx ("b-second") 2,
      mkSummaryEx ("c-third") 1]
    [mkSummaryEx ("b-second") 2, mkSummaryEx ("a-first") 1,
      mkSummaryEx ("c-third") 1]
    (by rfl) (by rfl)

/-! ## Claim C7 -/

theorem buildOne_error_of_baddate {env : BuildEnv} {today : String}
    {p : SrcFile} {fm : Meta} {body : String}
    (hfm : parse_frontmatter env.yamlLoad p.raw = some (fm, body))
    (hdate : env.fromiso (effDateStr fm today) = none) :
    buildOne env today p = .error () := by
  unfold buildOne
  rw [hfm]
  dsimp only
  rw [hdate]

theorem traversePosts_error_of_mem {env : BuildEnv} {today : String}
    {files : List SrcFile} {p : SrcFile} (hp : p ∈ files)
    (he : buildOne env today p = .error ()) :
    traversePosts env today files = .error () := by
  induction files with
  | nil => cases hp
  | cons q qs ih =>
    rw [traversePosts]
    rcases List.mem_cons.mp hp with rfl | hp'
    · rw [he]
    · cases hq : buildOne env today q with
      | error e =>
        cases e
        rfl
      | ok s =>
        dsimp only
        rw [ih hp']

/-- Claim C7: a post whose effective date string the date parser rejects
fails the whole run: `build_posts` produces no summary list and the
pipeline errors before the index or the feed builder runs. -/
theorem claim_C7 (env : BuildEnv)
    (renderIndex renderFeed : List PostSummary → Option String)
    (today : String) (files : List SrcFile) (p : SrcFile) (fm : Meta)
    (body : String) (hp : p ∈ files)
    (hfm : parse_frontmatter env.yamlLoad p.raw = some (fm, body))
    (hdate : env.fromiso (effDateStr fm today) = none) :
    build_posts env today files = .error () ∧
    runPipeline env renderIndex renderFeed today files = .error () := by
  have htrav := traversePosts_error_of_mem hp
    (buildOne_error_of_baddate hfm hdate)
  constructor
  · unfold build_posts
    rw [htrav]
  · unfold runPipeline build_posts
    rw [htrav]

/-- Concrete instance of `claim_C7`: one post with unparseable date `"d"`. -/
theorem claim_C7_witness :
    build_posts envEx ("2026-01-01") [⟨"p", "---d---b"⟩] = .error () ∧
    runPipeline envEx (fun _ => some "") (fun _ => some "") ("2026-01-01")
      [⟨"p", "---d---b"⟩] = .error () :=
  claim_C7 envEx (fun _ => some "") (fun _ => some "") ("2026-01-01")
    [⟨"p", "---d---b"⟩] ⟨"p", "---d---b"⟩ [("date", YVal.vstr ("d"))] "b"
    (by simp) (by rfl) (by rfl)

/-! ## Claim C8: the template renderer

Modelled from the spec: the `templates/` directory and the jinja2 engine
(`Environment`, `FileSystemLoader`, `get_template`, `Template.render`) are
not under `src/`; only the `render` wrapper (build.py lines 55-63) is.
Following the spec's description, a template is a sequence of literal text
chunks and variable references, each reference either bare (a REQUIRED
context key) or carrying a default; the store maps template names to
templates.  Rendering "fails fatally" — here `.error ()` — when the named
template does not exist or when a required reference has no supplied
value. -/

/-- A template node: literal text, or a reference to a context key with an
optional default. -/
inductive TplNode
  | text (s : String)
  | var (key : String) (dflt : Option String)
deriving DecidableEq

/-- Modelled from the spec: render a template body against a context,
failing on the first bare reference to a missing key. -/
def renderNodes (ctx : List (String × String)) :
    List TplNode → Except Unit String
  | [] => .ok ""
  | .text s :: ns => (renderNodes ctx ns).map (fun r => s ++ r)
  | .var k d :: ns =>
    match (ctx.lookup k).or d with
    | some v => (renderNodes ctx ns).map (fun r => v ++ r)
    | none => .error ()

/-- Modelled from the spec: build.py `render(tpl, **ctx)` — look the named
template up in the store (a missing template is a fatal
`TemplateNotFound`), then render its body. -/
def render (store : String → Option (List TplNode)) (tpl : String)
    (ctx : List (String × String)) : Except Unit String :=
  match store tpl with
  | none => .error ()
  | some ns => renderNodes ctx ns

theorem renderNodes_error_of_missing {ctx : List (String × String)}
    {ns : List TplNode} {k : String}
    (hk : TplNode.var k none ∈ ns) (hctx : ctx.lookup k = none) :
    renderNodes ctx ns = .error () := by
  induction ns with
  | nil => cases hk
  | cons n ns' ih =>
    rcases List.mem_cons.mp hk with rfl | hk'
    · rw [renderNodes, hctx]
      rfl
    · cases n with
      | text s =>
        rw [renderNodes, ih hk']
        rfl
      | var k' d' =>
        rw [renderNodes]
        cases ho : (ctx.lookup k').or d' with
        | some v =>
          dsimp only
          rw [ih hk']
          rfl
        | none => rfl

/-- Claim C8 (spec-modelled): the template renderer fails fatally when the
named template does not exist, and when the template contains a bare
(default-less) reference to a context key the caller did not supply. -/
theorem claim_C8 (store : String → Option (List TplNode)) (tpl : String)
    (ctx : List (String × String)) (ns : List TplNode) (k : String)
    (hstore : store tpl = some ns) (hk : TplNode.var k none ∈ ns)
    (hctx : ctx.lookup k = none) :
    (∀ t : String, store t = none → render store t ctx = .error ()) ∧
    render store tpl ctx = .error () := by
  constructor
  · intro t ht
    unfold render
    rw [ht]
  · unfold render
    rw [hstore]
    exact renderNodes_error_of_missing hk hctx

/-- Concrete template store for the `claim_C8` witness. -/
def storeEx : String → Option (List TplNode) := fun t =>
  if t = "post.html" then
    some [TplNode.text ("x"), TplNode.var ("title") none]
  else none

/-- Concrete instance of `claim_C8`: an empty context misses the required
`title` key of `post.html`, and no other template exists in the store. -/
theorem claim_C8_witness :
    (∀ t : String, storeEx t = none → render storeEx t [] = .error ()) ∧
    render storeEx ("post.html") [] = .error () :=
  claim_C8 storeEx ("post.html") []
    [TplNode.text ("x"), TplNode.var ("title") none] ("title")
    (by rfl) (by decide) (by rfl)
